import Mathlib

/-!
Shallow embedding of the rustic repository engine (pack header format,
decrypt backend, prune decisions, retention policy, short-id resolution),
with theorems checking the specification's claims against the code.
-/

namespace Packfile

/-- Modelled from the spec: `BlobType` from `crate::blob` (not among the sampled
source files) — a blob is either file content (`Data`) or a serialized tree
(`Tree`). -/
inductive BlobType
  | Data
  | Tree
deriving DecidableEq

/-- `COMP_OVERHEAD` from `src/repo/packfile.rs`: the constant 32-byte crypto
overhead of the encryption envelope. -/
def COMP_OVERHEAD : Nat := 32

/-- `LENGTH_LEN` from `src/repo/packfile.rs`: the 4-byte length field. -/
def LENGTH_LEN : Nat := 4

/-- `IndexBlob` (from `crate::repofile`, as used by `src/repo/packfile.rs`):
one blob entry of an index pack. The id is its 32-byte hash, `length` the
ciphertext length in the pack, `uncompressed_length` the plaintext length
when zstd was applied (a `NonZeroU32` in the source, hence nonzero when
present), `offset` the position inside the pack. -/
structure IndexBlob where
  id : List Nat
  tpe : BlobType
  length : Nat
  uncompressed_length : Option Nat
  offset : Nat
deriving DecidableEq

/-- `HeaderEntry` from `src/repo/packfile.rs`: the four little-endian binary
header entry variants with magic tags 0..3. -/
inductive HeaderEntry
  | Data (len : Nat) (id : List Nat)
  | Tree (len : Nat) (id : List Nat)
  | CompData (len : Nat) (len_data : Nat) (id : List Nat)
  | CompTree (len : Nat) (len_data : Nat) (id : List Nat)
deriving DecidableEq

/-- `HeaderEntry::ENTRY_LEN`. -/
def ENTRY_LEN : Nat := 37

/-- `HeaderEntry::ENTRY_LEN_COMPRESSED`. -/
def ENTRY_LEN_COMPRESSED : Nat := 41

/-- `HeaderEntry::from_blob`. -/
def HeaderEntry.from_blob (blob : IndexBlob) : HeaderEntry :=
  match blob.uncompressed_length, blob.tpe with
  | none, BlobType.Data => HeaderEntry.Data blob.length blob.id
  | none, BlobType.Tree => HeaderEntry.Tree blob.length blob.id
  | some len, BlobType.Data => HeaderEntry.CompData blob.length len blob.id
  | some len, BlobType.Tree => HeaderEntry.CompTree blob.length len blob.id

/-- `HeaderEntry::length`: the length in bytes of one header entry. -/
def HeaderEntry.length : HeaderEntry → Nat
  | HeaderEntry.Data _ _ => ENTRY_LEN
  | HeaderEntry.Tree _ _ => ENTRY_LEN
  | HeaderEntry.CompData _ _ _ => ENTRY_LEN_COMPRESSED
  | HeaderEntry.CompTree _ _ _ => ENTRY_LEN_COMPRESSED

/-- `HeaderEntry::into_blob`: turn a parsed header entry into an `IndexBlob`
at the given offset (`NonZeroU32::new` yields `none` for a zero value). -/
def HeaderEntry.into_blob : HeaderEntry → Nat → IndexBlob
  | HeaderEntry.Data len id, offset =>
      { id := id, tpe := BlobType.Data, length := len,
        uncompressed_length := none, offset := offset }
  | HeaderEntry.Tree len id, offset =>
      { id := id, tpe := BlobType.Tree, length := len,
        uncompressed_length := none, offset := offset }
  | HeaderEntry.CompData len len_data id, offset =>
      { id := id, tpe := BlobType.Data, length := len,
        uncompressed_length := if len_data = 0 then none else some len_data,
        offset := offset }
  | HeaderEntry.CompTree len len_data id, offset =>
      { id := id, tpe := BlobType.Tree, length := len,
        uncompressed_length := if len_data = 0 then none else some len_data,
        offset := offset }

/-- Little-endian byte serialization of a `u32` value, as `binrw` writes it. -/
def u32Bytes (n : Nat) : List Nat :=
  [n % 256, n / 256 % 256, n / 65536 % 256, n / 16777216 % 256]

/-- Little-endian `u32` from four bytes, as `binrw` reads it. -/
def bytesToU32 (b0 b1 b2 b3 : Nat) : Nat :=
  b0 + 256 * b1 + 65536 * b2 + 16777216 * b3

/-- The binary serialization of one header entry: the magic tag byte followed
by the little-endian fields, as `HeaderEntry::write` emits it. -/
def entryBytes : HeaderEntry → List Nat
  | HeaderEntry.Data len id => 0 :: (u32Bytes len ++ id)
  | HeaderEntry.Tree len id => 1 :: (u32Bytes len ++ id)
  | HeaderEntry.CompData len len_data id =>
      2 :: (u32Bytes len ++ u32Bytes len_data ++ id)
  | HeaderEntry.CompTree len len_data id =>
      3 :: (u32Bytes len ++ u32Bytes len_data ++ id)

/-- `PackHeaderRef::to_binary`: the serialized header entries of the blobs,
in order. -/
def to_binary (blobs : List IndexBlob) : List Nat :=
  (blobs.map (fun b => entryBytes (HeaderEntry.from_blob b))).flatten

/-- Result of reading one header entry from the byte stream: an entry plus
the unconsumed rest, end of stream, or a hard parse error (bad magic tag). -/
inductive ReadResult
  | ok (e : HeaderEntry) (rest : List Nat)
  | eof
  | fail
deriving DecidableEq

/-- Read a little-endian `u32` from the stream. -/
def readU32 : List Nat → Option (Nat × List Nat)
  | b0 :: b1 :: b2 :: b3 :: rest => some (bytesToU32 b0 b1 b2 b3, rest)
  | _ => none

/-- Read a 32-byte id from the stream. -/
def readId (l : List Nat) : Option (List Nat × List Nat) :=
  if 32 ≤ l.length then some (l.take 32, l.drop 32) else none

/-- Read one `HeaderEntry` as `binrw` does inside `PackHeader::from_binary`:
a magic tag byte 0..3 selects the variant; running out of bytes is an EOF
(which ends the parse loop), an unknown tag is a hard error. -/
def readEntry : List Nat → ReadResult
  | [] => ReadResult.eof
  | t :: rest =>
    if 4 ≤ t then ReadResult.fail
    else
      match readU32 rest with
      | none => ReadResult.eof
      | some (len, rest1) =>
        if t ≤ 1 then
          match readId rest1 with
          | none => ReadResult.eof
          | some (id, rest2) =>
              ReadResult.ok
                (if t = 0 then HeaderEntry.Data len id else HeaderEntry.Tree len id)
                rest2
        else
          match readU32 rest1 with
          | none => ReadResult.eof
          | some (len_data, rest2) =>
            match readId rest2 with
            | none => ReadResult.eof
            | some (id, rest3) =>
                ReadResult.ok
                  (if t = 2 then HeaderEntry.CompData len len_data id
                   else HeaderEntry.CompTree len len_data id)
                  rest3

/-- The parse loop of `PackHeader::from_binary`: read header entries until
EOF, assigning offsets by prefix-summing the entry lengths. The fuel counts
loop iterations; since every entry consumes at least one byte, fuel
`data.length + 1` (as used by `from_binary`) can never run out, so the
fuel-exhausted branch is unreachable there. -/
def parseEntries : Nat → List Nat → Nat → Except Unit (List IndexBlob)
  | 0, _, _ => Except.error ()
  | fuel + 1, data, offset =>
    match readEntry data with
    | ReadResult.eof => Except.ok []
    | ReadResult.fail => Except.error ()
    | ReadResult.ok e rest =>
      let blob := e.into_blob offset
      match parseEntries fuel rest (offset + blob.length) with
      | Except.error err => Except.error err
      | Except.ok blobs => Except.ok (blob :: blobs)

/-- `PackHeader::from_binary`. -/
def from_binary (data : List Nat) : Except Unit (List IndexBlob) :=
  parseEntries (data.length + 1) data 0

/-- `PackHeaderRef::size`: crypto overhead plus the summed entry lengths. -/
def size (blobs : List IndexBlob) : Nat :=
  blobs.foldl (fun acc blob => acc + (HeaderEntry.from_blob blob).length)
    COMP_OVERHEAD

/-- `PackHeaderRef::pack_size`: the full pack size computed from the blobs. -/
def pack_size (blobs : List IndexBlob) : Nat :=
  blobs.foldl
    (fun acc blob => acc + blob.length + (HeaderEntry.from_blob blob).length)
    (COMP_OVERHEAD + LENGTH_LEN)

/-- Well-formedness of one blob as enforced by the Rust types: `u32` lengths
and a 32-byte id; `uncompressed_length` is a `NonZeroU32`, hence positive. -/
def blob_wf (b : IndexBlob) : Bool :=
  decide (b.length < 4294967296) && decide (b.id.length = 32) &&
    (match b.uncompressed_length with
     | none => true
     | some u => decide (0 < u) && decide (u < 4294967296))

/-- The offsets of the blobs are the prefix sums of the preceding blobs'
lengths, starting at `off`. -/
def offsetsFrom : Nat → List IndexBlob → Bool
  | _, [] => true
  | off, b :: rest => decide (b.offset = off) && offsetsFrom (off + b.length) rest

end Packfile

namespace Decrypt

/-- The post-decryption dispatch of `DecryptBackend::read_encrypted_full`
(`src/backend/decrypt.rs`), over the decrypted payload bytes. The zstd
decoder is an external library and enters as the parameter `decode`. A first
byte of 123 (the character value of an opening curly brace) or 91 (opening
square bracket) starts a legacy uncompressed JSON document and the payload
is returned as-is; a first byte of 2 marks zstd-compressed data and the
decoded remainder is returned; any other first byte is an error. Indexing an
empty payload panics in the source; that is modelled as an error. -/
def read_encrypted_full_payload (decode : List Nat → Except Unit (List Nat)) :
    List Nat → Except Unit (List Nat)
  | [] => Except.error ()
  | b :: rest =>
    if b = 123 ∨ b = 91 then Except.ok (b :: rest)
    else if b = 2 then decode rest
    else Except.error ()

end Decrypt

namespace Backend

/-- The intermediate per-query state of `ReadBackend::find_starts_with`
(`src/backend/mod.rs`): no match seen yet, exactly one match, or more than
one match. -/
inductive MapResult (α : Type)
  | none
  | some (v : α)
  | nonUnique
deriving DecidableEq

/-- `ReadBackend::find_starts_with`: resolve each queried hex-prefix string
in `vec` against the listed ids (rendered as hex strings). Walking the
listing, a matching id moves the query's state from no-match to that id, and
any further match to non-unique; finally each state is rendered as the found
id, a not-found error, or a non-uniqueness error. -/
def find_starts_with (listing : List String) (vec : List String) :
    List (Except String String) :=
  let results := listing.foldl
    (fun (results : List (MapResult String)) id =>
      (vec.zip results).map (fun vr =>
        if id.startsWith vr.1 then
          match vr.2 with
          | MapResult.none => MapResult.some id
          | _ => MapResult.nonUnique
        else vr.2))
    (vec.map (fun _ => MapResult.none))
  (vec.zip results).map (fun vr =>
    match vr.2 with
    | MapResult.some id => Except.ok id
    | MapResult.none => Except.error ("no suitable id found for " ++ vr.1)
    | MapResult.nonUnique => Except.error ("id " ++ vr.1 ++ " is not unique"))

/-- The single-query state transition of `find_starts_with`. -/
def lookupStep (v : String) (r : MapResult String) (id : String) :
    MapResult String :=
  if id.startsWith v then
    match r with
    | MapResult.none => MapResult.some id
    | _ => MapResult.nonUnique
  else r

end Backend

namespace Forget

/-- The calendrical view of a snapshot timestamp as read through the chrono
accessors used in `src/commands/forget.rs`: `ticks` is the absolute instant
(used for ordering and duration arithmetic), the remaining fields are the
accessor values `year()`, `month0()`, `iso_week().week()`, `ordinal()` and
`hour()`. -/
structure RTime where
  ticks : Int
  year : Int
  month0 : Nat
  isoWeek : Nat
  ordinal : Nat
  hour : Nat
deriving DecidableEq

/-- chrono's `month()` accessor: one-based month, `month0() + 1`. -/
def RTime.month (t : RTime) : Nat := t.month0 + 1

/-- The part of `SnapshotFile` read by `KeepOptions::matches`: the hex
rendering of the snapshot id, the tag list, and the timestamp. -/
structure SnapshotFile where
  idHex : String
  tags : List String
  time : RTime
deriving DecidableEq

/-- `always_false` from `src/commands/forget.rs`. -/
def always_false (_sn1 _sn2 : SnapshotFile) : Bool := false

/-- `equal_year` from `src/commands/forget.rs`. -/
def equal_year (sn1 sn2 : SnapshotFile) : Bool :=
  sn1.time.year == sn2.time.year

/-- `equal_half_year` from `src/commands/forget.rs`. -/
def equal_half_year (sn1 sn2 : SnapshotFile) : Bool :=
  sn1.time.year == sn2.time.year && sn1.time.month0 / 6 == sn2.time.month0 / 6

/-- `equal_quarter_year` from `src/commands/forget.rs`. -/
def equal_quarter_year (sn1 sn2 : SnapshotFile) : Bool :=
  sn1.time.year == sn2.time.year && sn1.time.month0 / 3 == sn2.time.month0 / 3

/-- `equal_month` from `src/commands/forget.rs`. -/
def equal_month (sn1 sn2 : SnapshotFile) : Bool :=
  sn1.time.year == sn2.time.year && sn1.time.month == sn2.time.month

/-- `equal_week` from `src/commands/forget.rs`. -/
def equal_week (sn1 sn2 : SnapshotFile) : Bool :=
  sn1.time.year == sn2.time.year && sn1.time.isoWeek == sn2.time.isoWeek

/-- `equal_day` from `src/commands/forget.rs`. -/
def equal_day (sn1 sn2 : SnapshotFile) : Bool :=
  sn1.time.year == sn2.time.year && sn1.time.ordinal == sn2.time.ordinal

/-- `equal_hour` from `src/commands/forget.rs`. -/
def equal_hour (sn1 sn2 : SnapshotFile) : Bool :=
  sn1.time.year == sn2.time.year && sn1.time.ordinal == sn2.time.ordinal &&
    sn1.time.hour == sn2.time.hour

/-- `KeepOptions` (`src/commands/forget.rs`): per-bucket counters (`i32`,
where 0 disables the bucket and -1 means unbounded) and keep-within
durations (nonnegative, in the same ticks as `RTime.ticks`). -/
structure KeepOptions where
  keep_tags : List (List String)
  keep_ids : List String
  keep_last : Int
  keep_hourly : Int
  keep_daily : Int
  keep_weekly : Int
  keep_monthly : Int
  keep_quarter_yearly : Int
  keep_half_yearly : Int
  keep_yearly : Int
  keep_within : Nat
  keep_within_hourly : Nat
  keep_within_daily : Nat
  keep_within_weekly : Nat
  keep_within_monthly : Nat
  keep_within_quarter_yearly : Nat
  keep_within_half_yearly : Nat
  keep_within_yearly : Nat
deriving DecidableEq

/-- The eight retention buckets, in the order of the `keep_checks` array of
`KeepOptions::matches`. -/
inductive Bucket
  | lastB
  | hourly
  | daily
  | weekly
  | monthly
  | quarterYearly
  | halfYearly
  | yearly
deriving DecidableEq

/-- The bucket list in `keep_checks` order. -/
def Bucket.all : List Bucket :=
  [Bucket.lastB, Bucket.hourly, Bucket.daily, Bucket.weekly, Bucket.monthly,
   Bucket.quarterYearly, Bucket.halfYearly, Bucket.yearly]

/-- The equivalence predicate of each bucket (`check_fun`). -/
def bucketCheck : Bucket → SnapshotFile → SnapshotFile → Bool
  | Bucket.lastB => always_false
  | Bucket.hourly => equal_hour
  | Bucket.daily => equal_day
  | Bucket.weekly => equal_week
  | Bucket.monthly => equal_month
  | Bucket.quarterYearly => equal_quarter_year
  | Bucket.halfYearly => equal_half_year
  | Bucket.yearly => equal_year

/-- The counter of each bucket (`counter`). -/
def bucketCounter (o : KeepOptions) : Bucket → Int
  | Bucket.lastB => o.keep_last
  | Bucket.hourly => o.keep_hourly
  | Bucket.daily => o.keep_daily
  | Bucket.weekly => o.keep_weekly
  | Bucket.monthly => o.keep_monthly
  | Bucket.quarterYearly => o.keep_quarter_yearly
  | Bucket.halfYearly => o.keep_half_yearly
  | Bucket.yearly => o.keep_yearly

/-- Write back the counter of a bucket (the `&mut` update). -/
def setBucketCounter (o : KeepOptions) : Bucket → Int → KeepOptions
  | Bucket.lastB, v => { o with keep_last := v }
  | Bucket.hourly, v => { o with keep_hourly := v }
  | Bucket.daily, v => { o with keep_daily := v }
  | Bucket.weekly, v => { o with keep_weekly := v }
  | Bucket.monthly, v => { o with keep_monthly := v }
  | Bucket.quarterYearly, v => { o with keep_quarter_yearly := v }
  | Bucket.halfYearly, v => { o with keep_half_yearly := v }
  | Bucket.yearly, v => { o with keep_yearly := v }

/-- The keep-within duration of each bucket (`within`). -/
def bucketWithin (o : KeepOptions) : Bucket → Nat
  | Bucket.lastB => o.keep_within
  | Bucket.hourly => o.keep_within_hourly
  | Bucket.daily => o.keep_within_daily
  | Bucket.weekly => o.keep_within_weekly
  | Bucket.monthly => o.keep_within_monthly
  | Bucket.quarterYearly => o.keep_within_quarter_yearly
  | Bucket.halfYearly => o.keep_within_half_yearly
  | Bucket.yearly => o.keep_within_yearly

/-- The counter keep reason of each bucket (`reason1`). -/
def bucketReason1 : Bucket → String
  | Bucket.lastB => "last"
  | Bucket.hourly => "hourly"
  | Bucket.daily => "daily"
  | Bucket.weekly => "weekly"
  | Bucket.monthly => "monthly"
  | Bucket.quarterYearly => "quarter-yearly"
  | Bucket.halfYearly => "half-yearly"
  | Bucket.yearly => "yearly"

/-- The keep-within reason of each bucket (`reason2`). -/
def bucketReason2 : Bucket → String
  | Bucket.lastB => "within"
  | Bucket.hourly => "within hourly"
  | Bucket.daily => "within daily"
  | Bucket.weekly => "within weekly"
  | Bucket.monthly => "within monthly"
  | Bucket.quarterYearly => "within quarter-yearly"
  | Bucket.halfYearly => "within half-yearly"
  | Bucket.yearly => "within yearly"

/-- The loop guard of `KeepOptions::matches`: the snapshot begins a new
bucket, literally `!has_next || last.is_none() || !check_fun(sn,
last.unwrap())`. -/
def newBucket (b : Bucket) (sn : SnapshotFile) (last : Option SnapshotFile)
    (has_next : Bool) : Bool :=
  !has_next ||
    (match last with
     | none => true
     | some l => !(bucketCheck b sn l))

/-- One iteration of the `keep_checks` loop body of `KeepOptions::matches`,
over the running state (options with mutable counters, keep flag, reason
list). -/
def bucketStep (sn : SnapshotFile) (last : Option SnapshotFile)
    (has_next : Bool) (latest_time : Int)
    (st : KeepOptions × Bool × List String) (b : Bucket) :
    KeepOptions × Bool × List String :=
  let opts := st.1
  let keep := st.2.1
  let reason := st.2.2
  if newBucket b sn last has_next then
    let c := bucketCounter opts b
    let w := bucketWithin opts b
    let st1 : KeepOptions × Bool × List String :=
      if c ≠ 0 then
        (setBucketCounter opts b (if 0 < c then c - 1 else c), true,
          reason ++ [bucketReason1 b])
      else (opts, keep, reason)
    if sn.time.ticks + (w : Int) > latest_time then
      (st1.1, true, st1.2.2 ++ [bucketReason2 b])
    else st1
  else st

/-- `KeepOptions::matches` up to the final reason join: the id and tag
checks followed by the fold over the eight buckets. The tag-list matching
(`StringList::matches`, from a module outside the sampled source) enters as
the parameter `tagsMatches`. Returns the updated options, the keep flag and
the accumulated reason list. -/
def matchesCore (tagsMatches : List String → List (List String) → Bool)
    (opts : KeepOptions) (sn : SnapshotFile) (last : Option SnapshotFile)
    (has_next : Bool) (latest_time : Int) :
    KeepOptions × Bool × List String :=
  let keep := false
  let reason : List String := []
  let kr1 : Bool × List String :=
    if opts.keep_ids.any (fun id => sn.idHex.startsWith id) then
      (true, reason ++ ["id"])
    else (keep, reason)
  let kr2 : Bool × List String :=
    if !opts.keep_tags.isEmpty && tagsMatches sn.tags opts.keep_tags then
      (true, kr1.2 ++ ["tags"])
    else kr1
  Bucket.all.foldl (bucketStep sn last has_next latest_time)
    (opts, kr2.1, kr2.2)

/-- `KeepOptions::matches`: `Some` of the newline-joined reasons when any
reason fired, else `None`; also returns the options with their decremented
counters. -/
def matchesFn (tagsMatches : List String → List (List String) → Bool)
    (opts : KeepOptions) (sn : SnapshotFile) (last : Option SnapshotFile)
    (has_next : Bool) (latest_time : Int) :
    KeepOptions × Option String :=
  let st := matchesCore tagsMatches opts sn last has_next latest_time
  (st.1, if st.2.1 then some (String.intercalate "\n" st.2.2) else none)

/-- The snapshot delete policy, §3 of the spec:
`NotSet | Never | After(timestamp)`. -/
inductive DeleteOption
  | NotSet
  | Never
  | After (t : Int)
deriving DecidableEq

/-- Modelled from the spec: `SnapshotFile::must_keep` (the `repofile` module
is not among the sampled source files) — the delete policy is delete-never,
or delete-after with a timestamp in the future. -/
def must_keep (delete : DeleteOption) (now : Int) : Bool :=
  match delete with
  | DeleteOption.NotSet => false
  | DeleteOption.Never => true
  | DeleteOption.After t => now < t

/-- Modelled from the spec: `SnapshotFile::must_delete` — the delete policy
is delete-after with a timestamp in the past. -/
def must_delete (delete : DeleteOption) (now : Int) : Bool :=
  match delete with
  | DeleteOption.After t => t < now
  | _ => false

/-- The action decided for one snapshot. -/
inductive ForgetAction
  | keep
  | remove
deriving DecidableEq

/-- The per-snapshot decision chain of `forget::execute`
(`src/commands/forget.rs`, the body computing `(action, reason)`), over the
results `mk` of `sn.must_keep(now)` and `md` of `sn.must_delete(now)`:
must-keep wins, then must-delete, then an explicit id argument, then the
retention match, then the default. -/
def forget_decision (mk md : Bool) (ids_given : Bool)
    (matchesResult : Option String) (default_keep : Bool) :
    ForgetAction × String :=
  if mk then (ForgetAction.keep, "snapshot")
  else if md then (ForgetAction.remove, "snapshot")
  else if ids_given then (ForgetAction.remove, "id argument")
  else
    match matchesResult with
    | none =>
      if default_keep then (ForgetAction.keep, "") else (ForgetAction.remove, "")
    | some reason => (ForgetAction.keep, reason)

end Forget

namespace Prune

/-- Blob kind, shared with the pack format. -/
abbrev BlobType := Packfile.BlobType

/-- Modelled from the spec: `BlobType::is_cacheable` (from `crate::blob`,
not among the sampled source files) — tree packs are cacheable, data packs
are not. -/
def is_cacheable : BlobType → Bool
  | Packfile.BlobType.Tree => true
  | Packfile.BlobType.Data => false

/-- The `used_ids` map of the pruner: blob id to remaining use counter
(`HashMap<Id, u8>`; only decrements happen inside `PackInfo::from_pack`, so
the `u8` saturation never matters there). Ids are abstracted as naturals. -/
def UsedIds := Nat → Option Nat

/-- Point update of the `used_ids` map (the effect of writing through
`get_mut`). -/
def updateMap (m : UsedIds) (k : Nat) (v : Nat) : UsedIds :=
  fun x => if x = k then some v else m x

/-- An index blob entry as the pruner sees it. -/
structure IndexBlob where
  id : Nat
  tpe : BlobType
  length : Nat
  uncompressed_length : Option Nat
  offset : Nat

/-- `PackToDo` from `src/commands/prune.rs`. -/
inductive PackToDo
  | Undecided
  | Keep
  | Repack
  | MarkDelete
  | KeepMarked
  | Recover
  | Delete
deriving DecidableEq

/-- `PrunePack` from `src/commands/prune.rs`; `time` is an absolute instant
in the same units as the pruner's `keep_pack` and `keep_delete` durations. -/
structure PrunePack where
  id : Nat
  blob_type : BlobType
  size : Nat
  delete_mark : Bool
  to_do : PackToDo
  time : Option Int
  blobs : List IndexBlob

/-- `PrunePack::set_todo` (only the `to_do` assignment; the statistics
bookkeeping does not feed back into any pack decision). -/
def set_todo (p : PrunePack) (todo : PackToDo) : PrunePack :=
  { p with to_do := todo }

/-- `PrunePack::is_compressed`: all blobs carry an uncompressed length. -/
def is_compressed (p : PrunePack) : Bool :=
  p.blobs.all (fun blob => blob.uncompressed_length.isSome)

/-- `PackInfo` from `src/commands/prune.rs`. -/
structure PackInfo where
  blob_type : BlobType
  used_blobs : Nat
  unused_blobs : Nat
  used_size : Nat
  unused_size : Nat
deriving DecidableEq

/-- `RepackReason` from `src/commands/prune.rs`. -/
inductive RepackReason
  | PartlyUsed
  | ToCompress
  | SizeMismatch
deriving DecidableEq

/-- First phase of `PackInfo::from_pack`: the `position` search for the
first needed blob. Blobs whose counter is absent or zero count as unused; a
blob with a positive counter is decremented — reaching zero makes it the
first needed blob (counted used, search stops), otherwise it also counts as
unused. Returns the updated map, the accumulated counts, and on success the
processed prefix together with the remaining blobs. -/
def findFirstNeeded (m : UsedIds) (pi : PackInfo) (acc : List IndexBlob) :
    List IndexBlob →
      UsedIds × PackInfo × Option (List IndexBlob × List IndexBlob)
  | [] => (m, pi, none)
  | b :: rest =>
    match m b.id with
    | some (c + 1) =>
      let m2 := updateMap m b.id c
      if c = 0 then
        (m2,
         { pi with used_size := pi.used_size + b.length,
                   used_blobs := pi.used_blobs + 1 },
         some (acc.reverse, rest))
      else
        findFirstNeeded m2
          { pi with unused_size := pi.unused_size + b.length,
                    unused_blobs := pi.unused_blobs + 1 }
          (b :: acc) rest
    | _ =>
      findFirstNeeded m
        { pi with unused_size := pi.unused_size + b.length,
                  unused_blobs := pi.unused_blobs + 1 }
        (b :: acc) rest

/-- Second phase of `PackInfo::from_pack`: reprocess the blobs before the
first needed one, remarking as used every blob whose counter is still
positive (and zeroing that counter). -/
def reprocess (m : UsedIds) (pi : PackInfo) :
    List IndexBlob → UsedIds × PackInfo
  | [] => (m, pi)
  | b :: rest =>
    match m b.id with
    | some (_ + 1) =>
      reprocess (updateMap m b.id 0)
        { pi with unused_size := pi.unused_size - b.length,
                  unused_blobs := pi.unused_blobs - 1,
                  used_size := pi.used_size + b.length,
                  used_blobs := pi.used_blobs + 1 }
        rest
    | _ => reprocess m pi rest

/-- Third phase of `PackInfo::from_pack`: the blobs after the first needed
one; a positive counter marks the blob used in this pack (and zeroes the
counter), otherwise it is unused. -/
def processRest (m : UsedIds) (pi : PackInfo) :
    List IndexBlob → UsedIds × PackInfo
  | [] => (m, pi)
  | b :: rest =>
    match m b.id with
    | some (_ + 1) =>
      processRest (updateMap m b.id 0)
        { pi with used_size := pi.used_size + b.length,
                  used_blobs := pi.used_blobs + 1 }
        rest
    | _ =>
      processRest m
        { pi with unused_size := pi.unused_size + b.length,
                  unused_blobs := pi.unused_blobs + 1 }
        rest

/-- `PackInfo::from_pack`: classify the blobs of a pack into used and unused
against the `used_ids` counters, returning the counts and the updated map. -/
def from_pack (pack : PrunePack) (m : UsedIds) : PackInfo × UsedIds :=
  let pi0 : PackInfo :=
    { blob_type := pack.blob_type, used_blobs := 0, unused_blobs := 0,
      used_size := 0, unused_size := 0 }
  match findFirstNeeded m pi0 [] pack.blobs with
  | (m1, pi1, none) => (pi1, m1)
  | (m1, pi1, some (pre, rest)) =>
    let mp := reprocess m1 pi1 pre
    let mr := processRest mp.1 mp.2 rest
    (mr.2, mr.1)

/-- The `Option` ordering test `pack.time > Some(t0)` from the `too_young`
check (`None` compares below every `Some`). -/
def optTimeGT : Option Int → Int → Bool
  | none, _ => false
  | some t, t0 => t0 < t

/-- The scalar arguments of `Pruner::decide_packs`; `size_ok` stands for
`pack_sizer[blob_type].size_ok` (the `PackSizer` lives outside the sampled
source and enters as a parameter). -/
structure DecideArgs where
  time : Int
  keep_pack : Int
  keep_delete : Int
  repack_cacheable_only : Bool
  repack_uncompressed : Bool
  size_ok : BlobType → Nat → Bool

/-- The per-pack body of `Pruner::decide_packs`: compute the pack's
`PackInfo` and either set its decision or report it as a repack candidate.
`none` models the `expect` panic on a marked pack without a time stamp. -/
def decide_pack (a : DecideArgs) (m : UsedIds) (pack : PrunePack) :
    Option (UsedIds × PrunePack × Option (PackInfo × RepackReason)) :=
  let pim := from_pack pack m
  let pi := pim.1
  let m2 := pim.2
  let too_young := optTimeGT pack.time (a.time - a.keep_pack)
  let keep_uncacheable :=
    a.repack_cacheable_only && !(is_cacheable pack.blob_type)
  let to_compress := a.repack_uncompressed && !(is_compressed pack)
  let size_mismatch := !(a.size_ok pack.blob_type pack.size)
  match pack.delete_mark, pi.used_blobs, pi.unused_blobs with
  | false, 0, _ =>
    if too_young then some (m2, set_todo pack PackToDo.Keep, none)
    else some (m2, set_todo pack PackToDo.MarkDelete, none)
  | false, _ + 1, 0 =>
    if too_young || keep_uncacheable then
      some (m2, set_todo pack PackToDo.Keep, none)
    else if to_compress then
      some (m2, pack, some (pi, RepackReason.ToCompress))
    else if size_mismatch then
      some (m2, pack, some (pi, RepackReason.SizeMismatch))
    else some (m2, set_todo pack PackToDo.Keep, none)
  | false, _ + 1, _ + 1 =>
    if too_young || keep_uncacheable then
      some (m2, set_todo pack PackToDo.Keep, none)
    else some (m2, pack, some (pi, RepackReason.PartlyUsed))
  | true, 0, _ =>
    match pack.time with
    | none => none
    | some t =>
      if a.time - t ≥ a.keep_delete then
        some (m2, set_todo pack PackToDo.Delete, none)
      else some (m2, set_todo pack PackToDo.KeepMarked, none)
  | true, _ + 1, _ => some (m2, set_todo pack PackToDo.Recover, none)

/-- `PruneIndex` from `src/commands/prune.rs`. -/
structure PruneIndex where
  id : Nat
  modified : Bool
  packs : List PrunePack

/-- `PruneIndex::len`: the total blob count of the index. -/
def PruneIndex.len (i : PruneIndex) : Nat :=
  (i.packs.map (fun p => p.blobs.length)).sum

/-- A queued repack candidate: its `PackInfo`, reason and the (index, pack)
position. -/
abbrev Candidate := PackInfo × RepackReason × Nat × Nat

/-- One pass of the inner pack loop of `Pruner::decide_packs` over the packs
of one index file: packs whose `delete_mark` equals `mark_case` are decided
(or queued), the rest are left untouched; `pack_num` enumerates all packs as
in the source. -/
def decide_packs_go (a : DecideArgs) (mark_case : Bool) (index_num : Nat)
    (m : UsedIds) (cands : List Candidate) (pack_num : Nat) :
    List PrunePack → Option (UsedIds × List PrunePack × List Candidate)
  | [] => some (m, [], cands)
  | p :: rest =>
    if p.delete_mark == mark_case then
      match decide_pack a m p with
      | none => none
      | some (m2, p2, cand) =>
        let cands2 :=
          match cand with
          | none => cands
          | some (pi, r) => cands ++ [(pi, r, index_num, pack_num)]
        match decide_packs_go a mark_case index_num m2 cands2 (pack_num + 1)
            rest with
        | none => none
        | some (m3, rest2, cands3) => some (m3, p2 :: rest2, cands3)
    else
      match decide_packs_go a mark_case index_num m cands (pack_num + 1)
          rest with
      | none => none
      | some (m3, rest2, cands3) => some (m3, p :: rest2, cands3)

/-- One pass of `Pruner::decide_packs` over all index files. -/
def decide_packs_files (a : DecideArgs) (mark_case : Bool) (index_num : Nat)
    (m : UsedIds) (cands : List Candidate) :
    List PruneIndex → Option (UsedIds × List PruneIndex × List Candidate)
  | [] => some (m, [], cands)
  | idx :: rest =>
    match decide_packs_go a mark_case index_num m cands 0 idx.packs with
    | none => none
    | some (m2, packs2, cands2) =>
      match decide_packs_files a mark_case (index_num + 1) m2 cands2 rest with
      | none => none
      | some (m3, rest2, cands3) =>
          some (m3, { idx with packs := packs2 } :: rest2, cands3)

/-- `Pruner::decide_packs`: process marked packs first, then unmarked ones,
threading the `used_ids` map and collecting repack candidates. -/
def decide_packs (a : DecideArgs) (m : UsedIds) (files : List PruneIndex) :
    Option (UsedIds × List PruneIndex × List Candidate) :=
  match decide_packs_files a true 0 m [] files with
  | none => none
  | some (m1, files1, cands1) => decide_packs_files a false 0 m1 cands1 files1

/-- The `must_modify` test of `Pruner::filter_index_files`: the index was
modified, or some pack's decision is not `Keep` — where `KeepMarked` counts
as kept unless `instant_delete` is set. -/
def must_modifyB (instant_delete : Bool) (index : PruneIndex) : Bool :=
  index.modified ||
    index.packs.any (fun p =>
      p.to_do != PackToDo.Keep &&
        (instant_delete || p.to_do != PackToDo.KeepMarked))

/-- The retention test of `Pruner::filter_index_files`: an index is kept for
processing if it must be modified or is below the compaction threshold of
10000 blobs. -/
def index_keptB (instant_delete : Bool) (index : PruneIndex) : Bool :=
  must_modifyB instant_delete index || decide (index.len < 10000)

/-- `Pruner::filter_index_files`: retain the indexes needing processing; if
none must be modified and exactly one was retained (necessarily only for
being too small), clear the retained set. -/
def filter_index_files (instant_delete : Bool)
    (index_files : List PruneIndex) : List PruneIndex :=
  let retained := index_files.filter (index_keptB instant_delete)
  let any_must_modify := index_files.any (must_modifyB instant_delete)
  if !any_must_modify && retained.length == 1 then [] else retained

end Prune

namespace Wit

/-- Identity zstd decoder stand-in for concrete evaluations. -/
def decode0 : List Nat → Except Unit (List Nat) := fun l => Except.ok l

/-- A concrete two-blob header: an uncompressed data blob followed by a
compressed tree blob, with prefix-sum offsets. -/
def blobsC2 : List Packfile.IndexBlob :=
  [{ id := List.replicate 32 0, tpe := Packfile.BlobType.Data, length := 3,
     uncompressed_length := none, offset := 0 },
   { id := List.replicate 32 1, tpe := Packfile.BlobType.Tree, length := 5,
     uncompressed_length := some 7, offset := 3 }]

/-- An empty `used_ids` map. -/
def mP : Prune.UsedIds := fun _ => none

/-- A concrete live pack with no used blobs. -/
def packLive : Prune.PrunePack :=
  { id := 1, blob_type := Packfile.BlobType.Data, size := 40,
    delete_mark := false, to_do := Prune.PackToDo.Undecided, time := some 0,
    blobs := [{ id := 7, tpe := Packfile.BlobType.Data, length := 4,
                uncompressed_length := none, offset := 0 }] }

/-- A concrete tombstoned pack with no used blobs. -/
def packMarked : Prune.PrunePack :=
  { packLive with id := 2, delete_mark := true }

/-- A concrete tombstoned pack with a used blob. -/
def packMarkedUsed : Prune.PrunePack :=
  { packLive with id := 3, delete_mark := true }

/-- A `used_ids` map making blob 7 needed once. -/
def mPUsed : Prune.UsedIds := fun x => if x = 7 then some 1 else none

/-- Trivial tag matcher for concrete evaluations. -/
def tm0 : List String → List (List String) → Bool := fun _ _ => false

/-- A concrete snapshot timestamp. -/
def rt0 : Forget.RTime :=
  { ticks := 0, year := 2024, month0 := 0, isoWeek := 1, ordinal := 1,
    hour := 0 }

/-- A concrete snapshot. -/
def snK : Forget.SnapshotFile := { idHex := "aa", tags := [], time := rt0 }

/-- A second snapshot in the same hour as `snK`. -/
def lastK : Forget.SnapshotFile := { idHex := "bb", tags := [], time := rt0 }

/-- Keep options that are all disabled except a large hourly keep-within. -/
def optsC : Forget.KeepOptions :=
  { keep_tags := [], keep_ids := [], keep_last := 0, keep_hourly := 0,
    keep_daily := 0, keep_weekly := 0, keep_monthly := 0,
    keep_quarter_yearly := 0, keep_half_yearly := 0, keep_yearly := 0,
    keep_within := 0, keep_within_hourly := 100, keep_within_daily := 0,
    keep_within_weekly := 0, keep_within_monthly := 0,
    keep_within_quarter_yearly := 0, keep_within_half_yearly := 0,
    keep_within_yearly := 0 }

/-- Keep options with only a daily counter. -/
def optsK : Forget.KeepOptions :=
  { optsC with keep_within_hourly := 0, keep_daily := 2 }

/-- Concrete `decide_packs` arguments. -/
def aP : Prune.DecideArgs :=
  { time := 10, keep_pack := 5, keep_delete := 3,
    repack_cacheable_only := false, repack_uncompressed := false,
    size_ok := fun _ _ => true }

/-- A small unmodified index with all packs kept. -/
def idxSmall : Prune.PruneIndex :=
  { id := 1, modified := false,
    packs := [{ Wit.packLive with to_do := Prune.PackToDo.Keep }] }

end Wit

/-! ## Theorems -/

theorem aux_foldl_add {α : Type} (f : α → Nat) (l : List α) :
    ∀ init : Nat, l.foldl (fun acc x => acc + f x) init = init + (l.map f).sum := by
  induction l with
  | nil => intro init; simp
  | cons a l ih =>
    intro init
    simp only [List.foldl_cons, List.map_cons, List.sum_cons]
    rw [ih]
    omega

theorem aux_foldl_add2 {α : Type} (f g : α → Nat) (l : List α) :
    ∀ init : Nat,
      l.foldl (fun acc x => acc + f x + g x) init =
        init + (l.map f).sum + (l.map g).sum := by
  induction l with
  | nil => intro init; simp
  | cons a l ih =>
    intro init
    simp only [List.foldl_cons, List.map_cons, List.sum_cons]
    rw [ih]
    omega

theorem aux_entry_length (b : Packfile.IndexBlob) :
    (Packfile.HeaderEntry.from_blob b).length =
      (match b.uncompressed_length with
       | none => 37
       | some _ => 41) := by
  obtain ⟨i, tp, ln, ul, off⟩ := b
  cases ul <;> cases tp <;> rfl

/-- Claim C3: for every blob list, the computed pack size equals the sum of
all blob lengths plus the header size plus the 4-byte length field, and the
header size is the 32-byte crypto overhead plus 37 bytes per uncompressed
entry and 41 bytes per compressed entry. -/
theorem packfile_pack_size_eq (blobs : List Packfile.IndexBlob) :
    Packfile.pack_size blobs =
      (blobs.map (fun b => b.length)).sum + Packfile.size blobs + 4 ∧
    Packfile.size blobs =
      32 + (blobs.map (fun b =>
        match b.uncompressed_length with
        | none => 37
        | some _ => 41)).sum := by
  constructor
  · unfold Packfile.pack_size Packfile.size
    rw [aux_foldl_add2 (fun b => b.length)
      (fun b => (Packfile.HeaderEntry.from_blob b).length),
      aux_foldl_add (fun b => (Packfile.HeaderEntry.from_blob b).length)]
    unfold Packfile.COMP_OVERHEAD Packfile.LENGTH_LEN
    omega
  · unfold Packfile.size
    rw [aux_foldl_add (fun b => (Packfile.HeaderEntry.from_blob b).length)]
    unfold Packfile.COMP_OVERHEAD
    simp only [aux_entry_length]

/-- Claim C4: the decrypted payload dispatch of `read_encrypted_full` — a
first byte of 2 yields the zstd-decoded remainder, a first byte opening a
JSON document (opening curly brace, 123, or opening square bracket, 91)
yields the plaintext as-is, and any other first byte is an error. -/
theorem decrypt_read_encrypted_full_dispatch
    (decode : List Nat → Except Unit (List Nat)) (b : Nat) (rest : List Nat) :
    (b = 2 →
      Decrypt.read_encrypted_full_payload decode (b :: rest) = decode rest) ∧
    (b = 123 ∨ b = 91 →
      Decrypt.read_encrypted_full_payload decode (b :: rest) =
        Except.ok (b :: rest)) ∧
    (b ≠ 2 → b ≠ 123 → b ≠ 91 →
      Decrypt.read_encrypted_full_payload decode (b :: rest) =
        Except.error ()) := by
  refine ⟨?_, ?_, ?_⟩
  · intro h
    subst h
    simp [Decrypt.read_encrypted_full_payload]
  · intro h
    simp [Decrypt.read_encrypted_full_payload, h]
  · intro h2 h123 h91
    simp [Decrypt.read_encrypted_full_payload, h2, h123, h91]

theorem decrypt_read_encrypted_full_dispatch_witness :
    (2 : Nat) = 2 ∧
    Decrypt.read_encrypted_full_payload Wit.decode0 (2 :: [5, 6]) =
      Wit.decode0 [5, 6] :=
  ⟨rfl, (decrypt_read_encrypted_full_dispatch Wit.decode0 2 [5, 6]).1 rfl⟩

/-- Claim C7: whenever `must_keep` holds the forget decision is keep with
reason snapshot; `must_delete` is only consulted after `must_keep` fails, so
a snapshot satisfying both is kept (second conjunct: the chain at `mk =
true` returns keep for every value of `md`). -/
theorem forget_must_keep_wins (d : Forget.DeleteOption) (now : Int)
    (md ids dk : Bool) (mr : Option String) :
    (Forget.must_keep d now = true →
      Forget.forget_decision (Forget.must_keep d now)
        (Forget.must_delete d now) ids mr dk =
        (Forget.ForgetAction.keep, "snapshot")) ∧
    Forget.forget_decision true md ids mr dk =
      (Forget.ForgetAction.keep, "snapshot") := by
  constructor
  · intro h
    simp [Forget.forget_decision, h]
  · simp [Forget.forget_decision]

theorem forget_must_keep_wins_witness :
    Forget.must_keep Forget.DeleteOption.Never 0 = true ∧
    Forget.forget_decision (Forget.must_keep Forget.DeleteOption.Never 0)
      (Forget.must_delete Forget.DeleteOption.Never 0) false none false =
      (Forget.ForgetAction.keep, "snapshot") :=
  ⟨rfl,
    (forget_must_keep_wins Forget.DeleteOption.Never 0 true false false
      none).1 rfl⟩

/-- Claim C8: `filter_index_files` retains an index iff it is modified, or
some pack's decision is other than `Keep` (with `KeepMarked` counting as
`Keep` unless `instant_delete`), or its blob count is below 10000 — except
that when no index must be modified and exactly one index qualifies (then
necessarily only by the size criterion), the retained set is cleared. -/
theorem prune_filter_index_files_spec (d : Bool)
    (files : List Prune.PruneIndex) (i : Prune.PruneIndex) :
    (i ∈ Prune.filter_index_files d files ↔
      (i ∈ files ∧ Prune.index_keptB d i = true ∧
        ¬(files.any (Prune.must_modifyB d) = false ∧
          (files.filter (Prune.index_keptB d)).length = 1))) ∧
    (files.any (Prune.must_modifyB d) = false →
      (files.filter (Prune.index_keptB d)).length = 1 →
      Prune.filter_index_files d files = []) ∧
    (Prune.must_modifyB d i = true ↔
      (i.modified = true ∨
        ∃ p ∈ i.packs, p.to_do ≠ Prune.PackToDo.Keep ∧
          (d = true ∨ p.to_do ≠ Prune.PackToDo.KeepMarked))) ∧
    (Prune.index_keptB d i = true ↔
      (Prune.must_modifyB d i = true ∨ i.len < 10000)) := by
  refine ⟨?_, ?_, ?_, ?_⟩
  · unfold Prune.filter_index_files
    by_cases hc :
      (!files.any (Prune.must_modifyB d) &&
        (files.filter (Prune.index_keptB d)).length == 1) = true
    · rw [if_pos hc]
      simp only [Bool.and_eq_true, Bool.not_eq_true', beq_iff_eq] at hc
      simp [hc.1, hc.2]
    · rw [if_neg hc]
      simp only [Bool.and_eq_true, Bool.not_eq_true', beq_iff_eq] at hc
      rw [Classical.not_and_iff_or_not_not] at hc
      constructor
      · intro hm
        rw [List.mem_filter] at hm
        exact ⟨hm.1, hm.2, fun hcon => by
          rcases hc with h1 | h2
          · exact h1 hcon.1
          · exact h2 hcon.2⟩
      · intro hm
        rw [List.mem_filter]
        exact ⟨hm.1, hm.2.1⟩
  · intro h1 h2
    unfold Prune.filter_index_files
    rw [if_pos]
    simp [h1, h2]
  · unfold Prune.must_modifyB
    simp [List.any_eq_true, bne_iff_ne, Bool.or_eq_true, Bool.and_eq_true,
      and_assoc]
  · unfold Prune.index_keptB
    simp [Bool.or_eq_true, decide_eq_true_eq]

theorem prune_filter_index_files_spec_witness :
    [Wit.idxSmall].any (Prune.must_modifyB false) = false ∧
    ([Wit.idxSmall].filter (Prune.index_keptB false)).length = 1 ∧
    Prune.filter_index_files false [Wit.idxSmall] = [] :=
  ⟨by decide, by decide,
    (prune_filter_index_files_spec false [Wit.idxSmall] Wit.idxSmall).2.1
      (by decide) (by decide)⟩

theorem aux_fold_singleton (v : String) (listing : List String)
    (r : Backend.MapResult String) :
    listing.foldl
      (fun (results : List (Backend.MapResult String)) id =>
        ([v].zip results).map (fun vr =>
          if id.startsWith vr.1 then
            match vr.2 with
            | Backend.MapResult.none => Backend.MapResult.some id
            | _ => Backend.MapResult.nonUnique
          else vr.2))
      [r] =
    [listing.foldl (Backend.lookupStep v) r] := by
  induction listing generalizing r with
  | nil => rfl
  | cons id rest ih =>
    simp only [List.foldl_cons]
    exact ih (Backend.lookupStep v r id)

theorem aux_lookup_go (v : String) (listing : List String)
    (r : Backend.MapResult String) :
    listing.foldl (Backend.lookupStep v) r =
      (match r, listing.filter (fun id => id.startsWith v) with
       | r, [] => r
       | Backend.MapResult.none, [id] => Backend.MapResult.some id
       | Backend.MapResult.none, _ :: _ :: _ => Backend.MapResult.nonUnique
       | Backend.MapResult.some _, _ :: _ => Backend.MapResult.nonUnique
       | Backend.MapResult.nonUnique, _ :: _ => Backend.MapResult.nonUnique) := by
  induction listing generalizing r with
  | nil => cases r <;> rfl
  | cons id rest ih =>
    simp only [List.foldl_cons, List.filter_cons]
    by_cases h : id.startsWith v
    · simp only [h, if_true]
      cases r with
      | none =>
        rw [show Backend.lookupStep v Backend.MapResult.none id =
          Backend.MapResult.some id by simp [Backend.lookupStep, h]]
        rw [ih]
        rcases hf : rest.filter (fun id => id.startsWith v) with _ | ⟨x, xs⟩ <;>
          simp only [hf]
      | some x =>
        rw [show Backend.lookupStep v (Backend.MapResult.some x) id =
          Backend.MapResult.nonUnique by simp [Backend.lookupStep, h]]
        rw [ih]
        rcases hf : rest.filter (fun id => id.startsWith v) with _ | ⟨y, ys⟩ <;>
          simp only [hf]
      | nonUnique =>
        rw [show Backend.lookupStep v Backend.MapResult.nonUnique id =
          Backend.MapResult.nonUnique by simp [Backend.lookupStep, h]]
        rw [ih]
        rcases hf : rest.filter (fun id => id.startsWith v) with _ | ⟨y, ys⟩ <;>
          simp only [hf]
    · simp only [h, if_false]
      rw [show Backend.lookupStep v r id = r by simp [Backend.lookupStep, h]]
      exact ih r

/-- Claim C9: short-id resolution over a listing — a unique hex-prefix match
yields that id, zero matches yield the not-found error, two or more matches
yield the non-uniqueness error. -/
theorem backend_find_starts_with_resolution (listing : List String)
    (v : String) :
    Backend.find_starts_with listing [v] =
      [match listing.filter (fun id => id.startsWith v) with
       | [] => Except.error ("no suitable id found for " ++ v)
       | [id] => Except.ok id
       | _ :: _ :: _ => Except.error ("id " ++ v ++ " is not unique")] := by
  unfold Backend.find_starts_with
  rw [show ([v].map (fun _ => (Backend.MapResult.none : Backend.MapResult String))) =
    [Backend.MapResult.none] from rfl]
  rw [aux_fold_singleton v listing Backend.MapResult.none]
  rw [aux_lookup_go v listing Backend.MapResult.none]
  rcases hf : listing.filter (fun id => id.startsWith v) with _ | ⟨x, xs⟩
  · simp only [hf]
    rfl
  · rcases xs with _ | ⟨y, ys⟩ <;> simp only [hf] <;> rfl

/-- Claim C1: the non-candidate cases of `decide_packs` for a pack processed
with `used_ids` state `m` — a live pack with zero used blobs gets `Keep`
when its age is below `keep_pack` and `MarkDelete` otherwise; a tombstoned
pack with zero used blobs gets `Delete` when its age is at least
`keep_delete` and `KeepMarked` otherwise; a tombstoned pack with a used blob
gets `Recover`. None of these is queued as a repack candidate (the final
`none`). -/
theorem prune_decide_pack_nonrepack (a : Prune.DecideArgs)
    (m : Prune.UsedIds) (pack : Prune.PrunePack) (t : Int) :
    (pack.delete_mark = false → (Prune.from_pack pack m).1.used_blobs = 0 →
      pack.time = some t →
      Prune.decide_pack a m pack =
        some ((Prune.from_pack pack m).2,
          Prune.set_todo pack
            (if a.time - t < a.keep_pack then Prune.PackToDo.Keep
             else Prune.PackToDo.MarkDelete),
          none)) ∧
    (pack.delete_mark = true → (Prune.from_pack pack m).1.used_blobs = 0 →
      pack.time = some t →
      Prune.decide_pack a m pack =
        some ((Prune.from_pack pack m).2,
          Prune.set_todo pack
            (if a.keep_delete ≤ a.time - t then Prune.PackToDo.Delete
             else Prune.PackToDo.KeepMarked),
          none)) ∧
    (pack.delete_mark = true → (Prune.from_pack pack m).1.used_blobs ≠ 0 →
      Prune.decide_pack a m pack =
        some ((Prune.from_pack pack m).2,
          Prune.set_todo pack Prune.PackToDo.Recover, none)) := by
  refine ⟨?_, ?_, ?_⟩
  · intro hd hu ht
    simp only [Prune.decide_pack, hd, hu, ht]
    rcases lt_or_le (a.time - t) a.keep_pack with hlt | hge
    · rw [if_pos hlt]
      have hyoung : Prune.optTimeGT (some t) (a.time - a.keep_pack) = true := by
        simp only [Prune.optTimeGT, decide_eq_true_eq]
        omega
      simp [hyoung]
    · rw [if_neg (by omega : ¬(a.time - t < a.keep_pack))]
      have hold : Prune.optTimeGT (some t) (a.time - a.keep_pack) = false := by
        simp only [Prune.optTimeGT, decide_eq_false_iff_not]
        omega
      simp [hold]
  · intro hd hu ht
    simp only [Prune.decide_pack, hd, hu, ht]
    rcases le_or_lt a.keep_delete (a.time - t) with hge | hlt
    · rw [if_pos (show a.time - t ≥ a.keep_delete from hge), if_pos hge]
    · rw [if_neg (show ¬(a.time - t ≥ a.keep_delete) from by omega),
        if_neg (show ¬(a.keep_delete ≤ a.time - t) from by omega)]
  · intro hd hu
    obtain ⟨k, hk⟩ := Nat.exists_eq_succ_of_ne_zero hu
    simp only [Prune.decide_pack, hd, hk]

theorem prune_decide_pack_nonrepack_witness :
    (Wit.packLive.delete_mark = false ∧
      (Prune.from_pack Wit.packLive Wit.mP).1.used_blobs = 0 ∧
      Wit.packLive.time = some 0 ∧
      Prune.decide_pack Wit.aP Wit.mP Wit.packLive =
        some ((Prune.from_pack Wit.packLive Wit.mP).2,
          Prune.set_todo Wit.packLive
            (if (10 : Int) - 0 < 5 then Prune.PackToDo.Keep
             else Prune.PackToDo.MarkDelete),
          none)) ∧
    (Wit.packMarked.delete_mark = true ∧
      (Prune.from_pack Wit.packMarked Wit.mP).1.used_blobs = 0 ∧
      Prune.decide_pack Wit.aP Wit.mP Wit.packMarked =
        some ((Prune.from_pack Wit.packMarked Wit.mP).2,
          Prune.set_todo Wit.packMarked
            (if (3 : Int) ≤ 10 - 0 then Prune.PackToDo.Delete
             else Prune.PackToDo.KeepMarked),
          none)) ∧
    ((Prune.from_pack Wit.packMarkedUsed Wit.mPUsed).1.used_blobs ≠ 0 ∧
      Prune.decide_pack Wit.aP Wit.mPUsed Wit.packMarkedUsed =
        some ((Prune.from_pack Wit.packMarkedUsed Wit.mPUsed).2,
          Prune.set_todo Wit.packMarkedUsed Prune.PackToDo.Recover, none)) :=
  ⟨⟨rfl, rfl, rfl,
    (prune_decide_pack_nonrepack _ Wit.mP Wit.packLive 0).1 rfl rfl rfl⟩,
   ⟨rfl, rfl,
    (prune_decide_pack_nonrepack _ Wit.mP Wit.packMarked 0).2.1 rfl rfl rfl⟩,
   ⟨by decide,
    (prune_decide_pack_nonrepack _ Wit.mPUsed Wit.packMarkedUsed 0).2.2 rfl
      (by decide)⟩⟩

theorem aux_ffn_none (blobs : List Prune.IndexBlob) :
    ∀ (m : Prune.UsedIds) (pi : Prune.PackInfo) (acc : List Prune.IndexBlob)
      (m1 : Prune.UsedIds) (pi1 : Prune.PackInfo),
      Prune.findFirstNeeded m pi acc blobs = (m1, pi1, none) →
      pi1.used_blobs = pi.used_blobs ∧ pi1.used_size = pi.used_size ∧
      pi1.unused_blobs = pi.unused_blobs + blobs.length ∧
      pi1.unused_size =
        pi.unused_size + (blobs.map (fun b => b.length)).sum := by
  induction blobs with
  | nil =>
    intro m pi acc m1 pi1 h
    simp only [Prune.findFirstNeeded, Prod.mk.injEq] at h
    obtain ⟨-, h2, -⟩ := h
    subst h2
    simp
  | cons b bs ih =>
    intro m pi acc m1 pi1 h
    simp only [Prune.findFirstNeeded] at h
    rcases hm : m b.id with _ | c
    · simp only [hm] at h
      have hx := ih _ _ _ _ _ h
      dsimp only at hx
      simp only [List.length_cons, List.map_cons, List.sum_cons]
      omega
    · rcases c with _ | k
      · simp only [hm] at h
        have hx := ih _ _ _ _ _ h
        dsimp only at hx
        simp only [List.length_cons, List.map_cons, List.sum_cons]
        omega
      · by_cases hk : k = 0
        · subst hk
          simp only [hm] at h
          simp at h
        · simp only [hm, if_neg hk] at h
          have hx := ih _ _ _ _ _ h
          dsimp only at hx
          simp only [List.length_cons, List.map_cons, List.sum_cons]
          omega

theorem aux_ffn_some (blobs : List Prune.IndexBlob) :
    ∀ (m : Prune.UsedIds) (pi : Prune.PackInfo) (acc : List Prune.IndexBlob)
      (m1 : Prune.UsedIds) (pi1 : Prune.PackInfo)
      (pre rest : List Prune.IndexBlob),
      Prune.findFirstNeeded m pi acc blobs = (m1, pi1, some (pre, rest)) →
      ∃ mid bf, pre = acc.reverse ++ mid ∧ blobs = mid ++ bf :: rest ∧
        pi1.used_blobs = pi.used_blobs + 1 ∧
        pi1.used_size = pi.used_size + bf.length ∧
        pi1.unused_blobs = pi.unused_blobs + mid.length ∧
        pi1.unused_size =
          pi.unused_size + (mid.map (fun b => b.length)).sum := by
  induction blobs with
  | nil =>
    intro m pi acc m1 pi1 pre rest h
    simp [Prune.findFirstNeeded] at h
  | cons b bs ih =>
    intro m pi acc m1 pi1 pre rest h
    simp only [Prune.findFirstNeeded] at h
    rcases hm : m b.id with _ | c
    · simp only [hm] at h
      obtain ⟨mid, bb, hpre, hblobs, h1, h2, h3, h4⟩ := ih _ _ _ _ _ _ _ h
      dsimp only at h1 h2 h3 h4
      refine ⟨b :: mid, bb, ?_, ?_, ?_, ?_, ?_, ?_⟩
      · rw [hpre]; simp
      · rw [hblobs]; simp
      · omega
      · omega
      · simp only [List.length_cons]; omega
      · simp only [List.map_cons, List.sum_cons]; omega
    · rcases c with _ | k
      · simp only [hm] at h
        obtain ⟨mid, bb, hpre, hblobs, h1, h2, h3, h4⟩ := ih _ _ _ _ _ _ _ h
        dsimp only at h1 h2 h3 h4
        refine ⟨b :: mid, bb, ?_, ?_, ?_, ?_, ?_, ?_⟩
        · rw [hpre]; simp
        · rw [hblobs]; simp
        · omega
        · omega
        · simp only [List.length_cons]; omega
        · simp only [List.map_cons, List.sum_cons]; omega
      · by_cases hk : k = 0
        · subst hk
          simp only [hm] at h
          simp only [if_true, Prod.mk.injEq, Option.some.injEq] at h
          obtain ⟨-, hpi, hpre, hrest⟩ := h
          refine ⟨[], b, ?_, ?_, ?_, ?_, ?_, ?_⟩ <;>
            simp [← hpre, ← hrest, ← hpi]
        · simp only [hm, if_neg hk] at h
          obtain ⟨mid, bb, hpre, hblobs, h1, h2, h3, h4⟩ := ih _ _ _ _ _ _ _ h
          dsimp only at h1 h2 h3 h4
          refine ⟨b :: mid, bb, ?_, ?_, ?_, ?_, ?_, ?_⟩
          · rw [hpre]; simp
          · rw [hblobs]; simp
          · omega
          · omega
          · simp only [List.length_cons]; omega
          · simp only [List.map_cons, List.sum_cons]; omega

theorem aux_reprocess (pre : List Prune.IndexBlob) :
    ∀ (m : Prune.UsedIds) (pi : Prune.PackInfo),
      (pre.map (fun b => b.length)).sum ≤ pi.unused_size →
      pre.length ≤ pi.unused_blobs →
      ((Prune.reprocess m pi pre).2.used_size +
          (Prune.reprocess m pi pre).2.unused_size =
        pi.used_size + pi.unused_size) ∧
      ((Prune.reprocess m pi pre).2.used_blobs +
          (Prune.reprocess m pi pre).2.unused_blobs =
        pi.used_blobs + pi.unused_blobs) := by
  induction pre with
  | nil =>
    intro m pi hs hb
    simp [Prune.reprocess]
  | cons b rest ih =>
    intro m pi hs hb
    simp only [List.map_cons, List.sum_cons, List.length_cons] at hs hb
    simp only [Prune.reprocess]
    rcases hm : m b.id with _ | c
    · simp only [hm]
      exact ih _ _ (by omega) (by omega)
    · rcases c with _ | k
      · simp only [hm]
        exact ih _ _ (by omega) (by omega)
      · simp only [hm]
        have hx := ih (Prune.updateMap m b.id 0)
          { pi with unused_size := pi.unused_size - b.length,
                    unused_blobs := pi.unused_blobs - 1,
                    used_size := pi.used_size + b.length,
                    used_blobs := pi.used_blobs + 1 }
          (by dsimp only; omega) (by dsimp only; omega)
        dsimp only at hx
        omega

theorem aux_processRest (l : List Prune.IndexBlob) :
    ∀ (m : Prune.UsedIds) (pi : Prune.PackInfo),
      ((Prune.processRest m pi l).2.used_size +
          (Prune.processRest m pi l).2.unused_size =
        pi.used_size + pi.unused_size + (l.map (fun b => b.length)).sum) ∧
      ((Prune.processRest m pi l).2.used_blobs +
          (Prune.processRest m pi l).2.unused_blobs =
        pi.used_blobs + pi.unused_blobs + l.length) := by
  induction l with
  | nil =>
    intro m pi
    simp [Prune.processRest]
  | cons b rest ih =>
    intro m pi
    simp only [List.map_cons, List.sum_cons, List.length_cons]
    simp only [Prune.processRest]
    rcases hm : m b.id with _ | c
    · simp only [hm]
      have hx := ih m
        { pi with unused_size := pi.unused_size + b.length,
                  unused_blobs := pi.unused_blobs + 1 }
      dsimp only at hx
      omega
    · rcases c with _ | k
      · simp only [hm]
        have hx := ih m
          { pi with unused_size := pi.unused_size + b.length,
                    unused_blobs := pi.unused_blobs + 1 }
        dsimp only at hx
        omega
      · simp only [hm]
        have hx := ih (Prune.updateMap m b.id 0)
          { pi with used_size := pi.used_size + b.length,
                    used_blobs := pi.used_blobs + 1 }
        dsimp only at hx
        omega

/-- Claim C10: `PackInfo::from_pack` partitions the pack exactly — the used
and unused blob counts sum to the number of blobs and the used and unused
sizes sum to the total blob length, despite the two-phase reprocessing
(stated over the Nat model, i.e. assuming the `u16`/`u32` counters do not
overflow). -/
theorem prune_from_pack_partitions (pack : Prune.PrunePack)
    (m : Prune.UsedIds) :
    (Prune.from_pack pack m).1.used_blobs +
        (Prune.from_pack pack m).1.unused_blobs = pack.blobs.length ∧
    (Prune.from_pack pack m).1.used_size +
        (Prune.from_pack pack m).1.unused_size =
      (pack.blobs.map (fun b => b.length)).sum := by
  simp only [Prune.from_pack]
  rcases hf : Prune.findFirstNeeded m
      { blob_type := pack.blob_type, used_blobs := 0, unused_blobs := 0,
        used_size := 0, unused_size := 0 } [] pack.blobs with ⟨m1, pi1, res⟩
  cases res with
  | none =>
    have hx := aux_ffn_none pack.blobs _ _ _ _ _ hf
    dsimp only at hx
    simp only []
    omega
  | some pr =>
    obtain ⟨pre, rest⟩ := pr
    obtain ⟨mid, bf, hpre, hblobs, h1, h2, h3, h4⟩ :=
      aux_ffn_some pack.blobs _ _ _ _ _ _ _ hf
    dsimp only at h1 h2 h3 h4
    simp only [List.reverse_nil, List.nil_append] at hpre
    subst hpre
    have hrep := aux_reprocess pre m1 pi1 (by omega) (by omega)
    have hpr := aux_processRest rest (Prune.reprocess m1 pi1 pre).1
      (Prune.reprocess m1 pi1 pre).2
    simp only []
    rw [hblobs]
    simp only [List.length_append, List.length_cons, List.map_append,
      List.sum_append, List.map_cons, List.sum_cons]
    omega

theorem aux_u32_roundtrip (n : Nat) (h : n < 4294967296) :
    Packfile.bytesToU32 (n % 256) (n / 256 % 256) (n / 65536 % 256)
      (n / 16777216 % 256) = n := by
  unfold Packfile.bytesToU32
  omega

theorem aux_readU32_encode (n : Nat) (q : List Nat) (h : n < 4294967296) :
    Packfile.readU32 (Packfile.u32Bytes n ++ q) = some (n, q) := by
  simp only [Packfile.u32Bytes, List.cons_append, List.nil_append,
    Packfile.readU32]
  rw [aux_u32_roundtrip n h]

theorem aux_readId_encode (id q : List Nat) (h : id.length = 32) :
    Packfile.readId (id ++ q) = some (id, q) := by
  unfold Packfile.readId
  rw [if_pos (by simp [List.length_append, h])]
  rw [← h, List.take_left, List.drop_left]

theorem aux_into_from (b : Packfile.IndexBlob)
    (h : Packfile.blob_wf b = true) :
    (Packfile.HeaderEntry.from_blob b).into_blob b.offset = b := by
  obtain ⟨i, tp, ln, ul, off⟩ := b
  simp only [Packfile.blob_wf, Bool.and_eq_true, decide_eq_true_eq] at h
  cases ul with
  | none =>
    cases tp <;> rfl
  | some u =>
    have hu : ¬u = 0 := by
      rcases h with ⟨-, hu2⟩
      simp only [Bool.and_eq_true, decide_eq_true_eq] at hu2
      omega
    cases tp <;>
      simp [Packfile.HeaderEntry.from_blob, Packfile.HeaderEntry.into_blob,
        hu]

theorem aux_readEntry_blob (b : Packfile.IndexBlob) (q : List Nat)
    (h : Packfile.blob_wf b = true) :
    Packfile.readEntry
        (Packfile.entryBytes (Packfile.HeaderEntry.from_blob b) ++ q) =
      Packfile.ReadResult.ok (Packfile.HeaderEntry.from_blob b) q := by
  obtain ⟨i, tp, ln, ul, off⟩ := b
  simp only [Packfile.blob_wf, Bool.and_eq_true, decide_eq_true_eq] at h
  obtain ⟨⟨hln, hid⟩, hul⟩ := h
  cases ul with
  | none =>
    cases tp <;>
    · simp only [Packfile.HeaderEntry.from_blob, Packfile.entryBytes,
        List.cons_append, List.append_assoc, Packfile.readEntry]
      rw [aux_readU32_encode ln (i ++ q) hln]
      simp only [aux_readId_encode i q hid]
      norm_num
  | some u =>
    simp only [Bool.and_eq_true, decide_eq_true_eq] at hul
    cases tp <;>
    · simp only [Packfile.HeaderEntry.from_blob, Packfile.entryBytes,
        List.cons_append, List.append_assoc, Packfile.readEntry]
      rw [aux_readU32_encode ln (Packfile.u32Bytes u ++ (i ++ q)) hln]
      simp only [aux_readU32_encode u (i ++ q) hul.2,
        aux_readId_encode i q hid]
      norm_num

theorem aux_entryBytes_ne_nil (e : Packfile.HeaderEntry) :
    1 ≤ (Packfile.entryBytes e).length := by
  cases e <;> simp [Packfile.entryBytes]

theorem aux_len_le_to_binary (blobs : List Packfile.IndexBlob) :
    blobs.length ≤ (Packfile.to_binary blobs).length := by
  induction blobs with
  | nil => simp [Packfile.to_binary]
  | cons b bs ih =>
    simp only [Packfile.to_binary, List.map_cons, List.flatten_cons,
      List.length_append, List.length_cons]
    have := aux_entryBytes_ne_nil (Packfile.HeaderEntry.from_blob b)
    simp only [Packfile.to_binary] at ih
    omega

theorem aux_parse_encode (blobs : List Packfile.IndexBlob) :
    ∀ (off fuel : Nat), blobs.length < fuel →
      (∀ b ∈ blobs, Packfile.blob_wf b = true) →
      Packfile.offsetsFrom off blobs = true →
      Packfile.parseEntries fuel (Packfile.to_binary blobs) off =
        Except.ok blobs := by
  induction blobs with
  | nil =>
    intro off fuel hf _ _
    rcases fuel with _ | f
    · omega
    · rfl
  | cons b bs ih =>
    intro off fuel hf hwf hoff
    rcases fuel with _ | f
    · omega
    simp only [Packfile.offsetsFrom, Bool.and_eq_true, decide_eq_true_eq]
      at hoff
    obtain ⟨hoffb, hoffs⟩ := hoff
    have hwfb : Packfile.blob_wf b = true := hwf b (List.mem_cons_self b bs)
    have hstream : Packfile.to_binary (b :: bs) =
        Packfile.entryBytes (Packfile.HeaderEntry.from_blob b) ++
          Packfile.to_binary bs := by
      simp [Packfile.to_binary]
    rw [hstream]
    simp only [Packfile.parseEntries, aux_readEntry_blob b _ hwfb]
    have hblob : (Packfile.HeaderEntry.from_blob b).into_blob off = b := by
      rw [← hoffb]
      exact aux_into_from b hwfb
    rw [hblob]
    rw [ih (off + b.length) f (by simp at hf; omega)
      (fun x hx => hwf x (List.mem_cons_of_mem b hx)) hoffs]

/-- Claim C2: serializing a pack header via `PackHeaderRef::to_binary` and
parsing it back via `PackHeader::from_binary` returns exactly the original
blob list, provided the offsets are the prefix sums of the preceding
lengths and each blob is well-formed (`u32` lengths, 32-byte id, nonzero
uncompressed length when present); the parser reassigns the offsets by
prefix-summing the entries in order. -/
theorem packfile_header_roundtrip (blobs : List Packfile.IndexBlob)
    (h1 : ∀ b ∈ blobs, Packfile.blob_wf b = true)
    (h2 : Packfile.offsetsFrom 0 blobs = true) :
    Packfile.from_binary (Packfile.to_binary blobs) = Except.ok blobs := by
  unfold Packfile.from_binary
  exact aux_parse_encode blobs 0 _
    (by have := aux_len_le_to_binary blobs; omega) h1 h2

theorem packfile_header_roundtrip_witness :
    (∀ b ∈ Wit.blobsC2, Packfile.blob_wf b = true) ∧
    Packfile.offsetsFrom 0 Wit.blobsC2 = true ∧
    Packfile.from_binary (Packfile.to_binary Wit.blobsC2) =
      Except.ok Wit.blobsC2 :=
  ⟨by decide, by decide,
    packfile_header_roundtrip Wit.blobsC2 (by decide) (by decide)⟩

theorem aux_reason1_inj (b b' : Forget.Bucket) (h : b ≠ b') :
    Forget.bucketReason1 b ≠ Forget.bucketReason1 b' := by
  cases b <;> cases b' <;> first | exact absurd rfl h | decide

theorem aux_reason1_ne_reason2 (b b' : Forget.Bucket) :
    Forget.bucketReason1 b ≠ Forget.bucketReason2 b' := by
  cases b <;> cases b' <;> decide

theorem aux_reason1_ne_init (b : Forget.Bucket) :
    Forget.bucketReason1 b ≠ "id" ∧ Forget.bucketReason1 b ≠ "tags" := by
  cases b <;> exact ⟨by decide, by decide⟩

theorem aux_getSet_same (o : Forget.KeepOptions) (b : Forget.Bucket)
    (v : Int) :
    Forget.bucketCounter (Forget.setBucketCounter o b v) b = v := by
  cases b <;> rfl

theorem aux_getSet_ne (o : Forget.KeepOptions) (b b' : Forget.Bucket)
    (v : Int) (h : b ≠ b') :
    Forget.bucketCounter (Forget.setBucketCounter o b' v) b =
      Forget.bucketCounter o b := by
  cases b <;> cases b' <;> first | rfl | exact absurd rfl h

theorem aux_getWithin_set (o : Forget.KeepOptions) (b b' : Forget.Bucket)
    (v : Int) :
    Forget.bucketWithin (Forget.setBucketCounter o b' v) b =
      Forget.bucketWithin o b := by
  cases b <;> cases b' <;> rfl

theorem aux_step_counter_ne (sn : Forget.SnapshotFile)
    (last : Option Forget.SnapshotFile) (hn : Bool) (lt : Int)
    (st : Forget.KeepOptions × Bool × List String) (b b' : Forget.Bucket)
    (h : b ≠ b') :
    Forget.bucketCounter (Forget.bucketStep sn last hn lt st b').1 b =
      Forget.bucketCounter st.1 b := by
  by_cases h1 : Forget.newBucket b' sn last hn = true
  · simp only [Forget.bucketStep, h1, if_true]
    by_cases h2 : Forget.bucketCounter st.1 b' ≠ 0
    · rw [if_pos h2]
      by_cases h3 : sn.time.ticks + (Forget.bucketWithin st.1 b' : Int) > lt
      · rw [if_pos h3]
        exact aux_getSet_ne st.1 b b' _ h
      · rw [if_neg h3]
        exact aux_getSet_ne st.1 b b' _ h
    · rw [if_neg h2]
      by_cases h3 : sn.time.ticks + (Forget.bucketWithin st.1 b' : Int) > lt
      · rw [if_pos h3]
      · rw [if_neg h3]
  · simp only [Forget.bucketStep, h1]
    simp

theorem aux_step_counter_self (sn : Forget.SnapshotFile)
    (last : Option Forget.SnapshotFile) (hn : Bool) (lt : Int)
    (st : Forget.KeepOptions × Bool × List String) (b : Forget.Bucket) :
    Forget.bucketCounter (Forget.bucketStep sn last hn lt st b).1 b =
      (if Forget.newBucket b sn last hn = true ∧
          Forget.bucketCounter st.1 b ≠ 0 ∧ 0 < Forget.bucketCounter st.1 b
       then Forget.bucketCounter st.1 b - 1
       else Forget.bucketCounter st.1 b) := by
  by_cases h1 : Forget.newBucket b sn last hn = true
  · simp only [Forget.bucketStep]
    rw [if_pos h1]
    by_cases h2 : Forget.bucketCounter st.1 b ≠ 0
    · rw [if_pos h2]
      by_cases h4 : 0 < Forget.bucketCounter st.1 b
      · rw [if_pos h4]
        by_cases h3 : sn.time.ticks + (Forget.bucketWithin st.1 b : Int) > lt
        · rw [if_pos h3]
          rw [aux_getSet_same, if_pos ⟨h1, h2, h4⟩]
        · rw [if_neg h3]
          rw [aux_getSet_same, if_pos ⟨h1, h2, h4⟩]
      · rw [if_neg h4]
        by_cases h3 : sn.time.ticks + (Forget.bucketWithin st.1 b : Int) > lt
        · rw [if_pos h3]
          rw [aux_getSet_same, if_neg (show ¬(Forget.newBucket b sn last hn =
            true ∧ Forget.bucketCounter st.1 b ≠ 0 ∧
              0 < Forget.bucketCounter st.1 b) from fun hc => h4 hc.2.2)]
        · rw [if_neg h3]
          rw [aux_getSet_same, if_neg (show ¬(Forget.newBucket b sn last hn =
            true ∧ Forget.bucketCounter st.1 b ≠ 0 ∧
              0 < Forget.bucketCounter st.1 b) from fun hc => h4 hc.2.2)]
    · rw [if_neg h2]
      by_cases h3 : sn.time.ticks + (Forget.bucketWithin st.1 b : Int) > lt
      · rw [if_pos h3]
        rw [if_neg (show ¬(Forget.newBucket b sn last hn = true ∧
          Forget.bucketCounter st.1 b ≠ 0 ∧
            0 < Forget.bucketCounter st.1 b) from fun hc => h2 hc.2.1)]
      · rw [if_neg h3]
        rw [if_neg (show ¬(Forget.newBucket b sn last hn = true ∧
          Forget.bucketCounter st.1 b ≠ 0 ∧
            0 < Forget.bucketCounter st.1 b) from fun hc => h2 hc.2.1)]
  · simp only [Forget.bucketStep]
    rw [if_neg h1]
    rw [if_neg (show ¬(Forget.newBucket b sn last hn = true ∧
      Forget.bucketCounter st.1 b ≠ 0 ∧
        0 < Forget.bucketCounter st.1 b) from fun hc => h1 hc.1)]

theorem aux_step_within (sn : Forget.SnapshotFile)
    (last : Option Forget.SnapshotFile) (hn : Bool) (lt : Int)
    (st : Forget.KeepOptions × Bool × List String) (b b' : Forget.Bucket) :
    Forget.bucketWithin (Forget.bucketStep sn last hn lt st b').1 b =
      Forget.bucketWithin st.1 b := by
  by_cases h1 : Forget.newBucket b' sn last hn = true
  · simp only [Forget.bucketStep, h1, if_true]
    by_cases h2 : Forget.bucketCounter st.1 b' ≠ 0
    · rw [if_pos h2]
      by_cases h3 : sn.time.ticks + (Forget.bucketWithin st.1 b' : Int) > lt
      · rw [if_pos h3]
        exact aux_getWithin_set st.1 b b' _
      · rw [if_neg h3]
        exact aux_getWithin_set st.1 b b' _
    · rw [if_neg h2]
      by_cases h3 : sn.time.ticks + (Forget.bucketWithin st.1 b' : Int) > lt
      · rw [if_pos h3]
      · rw [if_neg h3]
  · simp only [Forget.bucketStep, h1]
    simp

theorem aux_step_mem_mono (sn : Forget.SnapshotFile)
    (last : Option Forget.SnapshotFile) (hn : Bool) (lt : Int)
    (st : Forget.KeepOptions × Bool × List String) (b' : Forget.Bucket)
    (x : String) (hx : x ∈ st.2.2) :
    x ∈ (Forget.bucketStep sn last hn lt st b').2.2 := by
  by_cases h1 : Forget.newBucket b' sn last hn = true
  · simp only [Forget.bucketStep, h1, if_true]
    by_cases h2 : Forget.bucketCounter st.1 b' ≠ 0
    · rw [if_pos h2]
      by_cases h3 : sn.time.ticks + (Forget.bucketWithin st.1 b' : Int) > lt
      · rw [if_pos h3]
        simp only [List.mem_append]
        left; left; exact hx
      · rw [if_neg h3]
        simp only [List.mem_append]
        left; exact hx
    · rw [if_neg h2]
      by_cases h3 : sn.time.ticks + (Forget.bucketWithin st.1 b' : Int) > lt
      · rw [if_pos h3]
        simp only [List.mem_append]
        left; exact hx
      · rw [if_neg h3]
        exact hx
  · simp only [Forget.bucketStep, h1]
    simpa using hx

theorem aux_step_keep_mono (sn : Forget.SnapshotFile)
    (last : Option Forget.SnapshotFile) (hn : Bool) (lt : Int)
    (st : Forget.KeepOptions × Bool × List String) (b' : Forget.Bucket)
    (hk : st.2.1 = true) :
    (Forget.bucketStep sn last hn lt st b').2.1 = true := by
  by_cases h1 : Forget.newBucket b' sn last hn = true
  · simp only [Forget.bucketStep, h1, if_true]
    by_cases h2 : Forget.bucketCounter st.1 b' ≠ 0
    · rw [if_pos h2]
      by_cases h3 : sn.time.ticks + (Forget.bucketWithin st.1 b' : Int) > lt
      · rw [if_pos h3]
      · rw [if_neg h3]
    · rw [if_neg h2]
      by_cases h3 : sn.time.ticks + (Forget.bucketWithin st.1 b' : Int) > lt
      · rw [if_pos h3]
      · rw [if_neg h3]
        exact hk
  · simp only [Forget.bucketStep, h1]
    simpa using hk

theorem aux_step_reason1_ne (sn : Forget.SnapshotFile)
    (last : Option Forget.SnapshotFile) (hn : Bool) (lt : Int)
    (st : Forget.KeepOptions × Bool × List String) (b b' : Forget.Bucket)
    (h : b ≠ b') :
    (Forget.bucketReason1 b ∈ (Forget.bucketStep sn last hn lt st b').2.2 ↔
      Forget.bucketReason1 b ∈ st.2.2) := by
  by_cases h1 : Forget.newBucket b' sn last hn = true
  · simp only [Forget.bucketStep, h1, if_true]
    by_cases h2 : Forget.bucketCounter st.1 b' ≠ 0
    · rw [if_pos h2]
      by_cases h3 : sn.time.ticks + (Forget.bucketWithin st.1 b' : Int) > lt
      · rw [if_pos h3]
        simp [List.mem_append, aux_reason1_inj b b' h,
          aux_reason1_ne_reason2 b b']
      · rw [if_neg h3]
        simp [List.mem_append, aux_reason1_inj b b' h]
    · rw [if_neg h2]
      by_cases h3 : sn.time.ticks + (Forget.bucketWithin st.1 b' : Int) > lt
      · rw [if_pos h3]
        simp [List.mem_append, aux_reason1_ne_reason2 b b']
      · rw [if_neg h3]
  · simp only [Forget.bucketStep, h1]
    simp

theorem aux_step_reason1_self (sn : Forget.SnapshotFile)
    (last : Option Forget.SnapshotFile) (hn : Bool) (lt : Int)
    (st : Forget.KeepOptions × Bool × List String) (b : Forget.Bucket) :
    (Forget.bucketReason1 b ∈ (Forget.bucketStep sn last hn lt st b).2.2 ↔
      ((Forget.newBucket b sn last hn = true ∧
          Forget.bucketCounter st.1 b ≠ 0) ∨
        Forget.bucketReason1 b ∈ st.2.2)) := by
  by_cases h1 : Forget.newBucket b sn last hn = true
  · simp only [Forget.bucketStep, h1, if_true]
    by_cases h2 : Forget.bucketCounter st.1 b ≠ 0
    · rw [if_pos h2]
      by_cases h3 : sn.time.ticks + (Forget.bucketWithin st.1 b : Int) > lt
      · rw [if_pos h3]
        simp [List.mem_append, h1, h2]
      · rw [if_neg h3]
        simp [List.mem_append, h1, h2]
    · rw [if_neg h2]
      by_cases h3 : sn.time.ticks + (Forget.bucketWithin st.1 b : Int) > lt
      · rw [if_pos h3]
        simp [List.mem_append, h2, aux_reason1_ne_reason2 b b]
      · rw [if_neg h3]
        simp [h2]
  · simp only [Forget.bucketStep, h1]
    simp [h1]

theorem aux_fold_counter_notmem (sn : Forget.SnapshotFile)
    (last : Option Forget.SnapshotFile) (hn : Bool) (lt : Int)
    (b : Forget.Bucket) :
    ∀ (l : List Forget.Bucket), b ∉ l →
      ∀ st, Forget.bucketCounter
          (l.foldl (Forget.bucketStep sn last hn lt) st).1 b =
        Forget.bucketCounter st.1 b := by
  intro l
  induction l with
  | nil => intro _ st; rfl
  | cons b' l ih =>
    intro hb st
    simp only [List.mem_cons, not_or] at hb
    simp only [List.foldl_cons]
    rw [ih hb.2, aux_step_counter_ne sn last hn lt st b b' hb.1]

theorem aux_fold_reason1_notmem (sn : Forget.SnapshotFile)
    (last : Option Forget.SnapshotFile) (hn : Bool) (lt : Int)
    (b : Forget.Bucket) :
    ∀ (l : List Forget.Bucket), b ∉ l →
      ∀ st, (Forget.bucketReason1 b ∈
          (l.foldl (Forget.bucketStep sn last hn lt) st).2.2 ↔
        Forget.bucketReason1 b ∈ st.2.2) := by
  intro l
  induction l with
  | nil => intro _ st; exact Iff.rfl
  | cons b' l ih =>
    intro hb st
    simp only [List.mem_cons, not_or] at hb
    simp only [List.foldl_cons]
    rw [ih hb.2, aux_step_reason1_ne sn last hn lt st b b' hb.1]

theorem aux_fold_within (sn : Forget.SnapshotFile)
    (last : Option Forget.SnapshotFile) (hn : Bool) (lt : Int)
    (b : Forget.Bucket) :
    ∀ (l : List Forget.Bucket) (st),
      Forget.bucketWithin
          (l.foldl (Forget.bucketStep sn last hn lt) st).1 b =
        Forget.bucketWithin st.1 b := by
  intro l
  induction l with
  | nil => intro st; rfl
  | cons b' l ih =>
    intro st
    simp only [List.foldl_cons]
    rw [ih, aux_step_within sn last hn lt st b b']

theorem aux_fold_mem_mono (sn : Forget.SnapshotFile)
    (last : Option Forget.SnapshotFile) (hn : Bool) (lt : Int) (x : String) :
    ∀ (l : List Forget.Bucket) (st), x ∈ st.2.2 →
      x ∈ (l.foldl (Forget.bucketStep sn last hn lt) st).2.2 := by
  intro l
  induction l with
  | nil => intro st hx; exact hx
  | cons b' l ih =>
    intro st hx
    simp only [List.foldl_cons]
    exact ih _ (aux_step_mem_mono sn last hn lt st b' x hx)

theorem aux_fold_keep_mono (sn : Forget.SnapshotFile)
    (last : Option Forget.SnapshotFile) (hn : Bool) (lt : Int) :
    ∀ (l : List Forget.Bucket) (st), st.2.1 = true →
      (l.foldl (Forget.bucketStep sn last hn lt) st).2.1 = true := by
  intro l
  induction l with
  | nil => intro st hk; exact hk
  | cons b' l ih =>
    intro st hk
    simp only [List.foldl_cons]
    exact ih _ (aux_step_keep_mono sn last hn lt st b' hk)

theorem aux_bucket_decomp (b : Forget.Bucket) :
    ∃ l1 l2, Forget.Bucket.all = l1 ++ b :: l2 ∧ b ∉ l1 ∧ b ∉ l2 := by
  cases b
  · exact ⟨[], [Forget.Bucket.hourly, Forget.Bucket.daily,
      Forget.Bucket.weekly, Forget.Bucket.monthly,
      Forget.Bucket.quarterYearly, Forget.Bucket.halfYearly,
      Forget.Bucket.yearly], rfl, by decide, by decide⟩
  · exact ⟨[Forget.Bucket.lastB], [Forget.Bucket.daily, Forget.Bucket.weekly,
      Forget.Bucket.monthly, Forget.Bucket.quarterYearly,
      Forget.Bucket.halfYearly, Forget.Bucket.yearly], rfl, by decide,
      by decide⟩
  · exact ⟨[Forget.Bucket.lastB, Forget.Bucket.hourly],
      [Forget.Bucket.weekly, Forget.Bucket.monthly,
       Forget.Bucket.quarterYearly, Forget.Bucket.halfYearly,
       Forget.Bucket.yearly], rfl, by decide, by decide⟩
  · exact ⟨[Forget.Bucket.lastB, Forget.Bucket.hourly, Forget.Bucket.daily],
      [Forget.Bucket.monthly, Forget.Bucket.quarterYearly,
       Forget.Bucket.halfYearly, Forget.Bucket.yearly], rfl, by decide,
      by decide⟩
  · exact ⟨[Forget.Bucket.lastB, Forget.Bucket.hourly, Forget.Bucket.daily,
      Forget.Bucket.weekly], [Forget.Bucket.quarterYearly,
       Forget.Bucket.halfYearly, Forget.Bucket.yearly], rfl, by decide,
      by decide⟩
  · exact ⟨[Forget.Bucket.lastB, Forget.Bucket.hourly, Forget.Bucket.daily,
      Forget.Bucket.weekly, Forget.Bucket.monthly],
      [Forget.Bucket.halfYearly, Forget.Bucket.yearly], rfl, by decide,
      by decide⟩
  · exact ⟨[Forget.Bucket.lastB, Forget.Bucket.hourly, Forget.Bucket.daily,
      Forget.Bucket.weekly, Forget.Bucket.monthly,
      Forget.Bucket.quarterYearly], [Forget.Bucket.yearly], rfl, by decide,
      by decide⟩
  · exact ⟨[Forget.Bucket.lastB, Forget.Bucket.hourly, Forget.Bucket.daily,
      Forget.Bucket.weekly, Forget.Bucket.monthly,
      Forget.Bucket.quarterYearly, Forget.Bucket.halfYearly], [], rfl,
      by decide, by decide⟩

theorem aux_foldall_char (sn : Forget.SnapshotFile)
    (last : Option Forget.SnapshotFile) (hn : Bool) (lt : Int)
    (b : Forget.Bucket) (opts : Forget.KeepOptions) (k : Bool)
    (r : List String) (hr : ∀ x ∈ r, x = "id" ∨ x = "tags") :
    (Forget.bucketReason1 b ∈
        (Forget.Bucket.all.foldl (Forget.bucketStep sn last hn lt)
          (opts, k, r)).2.2 ↔
      (Forget.newBucket b sn last hn = true ∧
        Forget.bucketCounter opts b ≠ 0)) ∧
    Forget.bucketCounter
        (Forget.Bucket.all.foldl (Forget.bucketStep sn last hn lt)
          (opts, k, r)).1 b =
      (if Forget.newBucket b sn last hn = true ∧
          Forget.bucketCounter opts b ≠ 0 ∧ 0 < Forget.bucketCounter opts b
       then Forget.bucketCounter opts b - 1
       else Forget.bucketCounter opts b) := by
  obtain ⟨l1, l2, hall, hb1, hb2⟩ := aux_bucket_decomp b
  rw [hall, List.foldl_append, List.foldl_cons]
  have hnotin : Forget.bucketReason1 b ∉ r := by
    intro hx
    rcases hr _ hx with h | h
    · exact (aux_reason1_ne_init b).1 h
    · exact (aux_reason1_ne_init b).2 h
  constructor
  · rw [aux_fold_reason1_notmem sn last hn lt b l2 hb2,
      aux_step_reason1_self, aux_fold_reason1_notmem sn last hn lt b l1 hb1,
      aux_fold_counter_notmem sn last hn lt b l1 hb1]
    show (Forget.newBucket b sn last hn = true ∧
        Forget.bucketCounter opts b ≠ 0) ∨ Forget.bucketReason1 b ∈ r ↔ _
    tauto
  · rw [aux_fold_counter_notmem sn last hn lt b l2 hb2,
      aux_step_counter_self, aux_fold_counter_notmem sn last hn lt b l1 hb1]

/-- Claim C5: in `KeepOptions::matches`, a bucket's keep reason fires
exactly when the snapshot begins a new bucket (no previous snapshot, or a
different bucket per the bucket's equivalence predicate, or last in the
group) and the bucket's counter is nonzero; the counter is decremented by
one when it fires and is positive, while -1 (and any value, when the reason
does not fire) is left unchanged and 0 never keeps. -/
theorem forget_matches_bucket_spec
    (tm : List String → List (List String) → Bool)
    (opts : Forget.KeepOptions) (sn : Forget.SnapshotFile)
    (last : Option Forget.SnapshotFile) (hn : Bool) (lt : Int)
    (b : Forget.Bucket) :
    (Forget.bucketReason1 b ∈
        (Forget.matchesCore tm opts sn last hn lt).2.2 ↔
      (Forget.newBucket b sn last hn = true ∧
        Forget.bucketCounter opts b ≠ 0)) ∧
    Forget.bucketCounter (Forget.matchesCore tm opts sn last hn lt).1 b =
      (if Forget.newBucket b sn last hn = true ∧
          Forget.bucketCounter opts b ≠ 0 ∧ 0 < Forget.bucketCounter opts b
       then Forget.bucketCounter opts b - 1
       else Forget.bucketCounter opts b) := by
  simp only [Forget.matchesCore]
  apply aux_foldall_char
  intro x hx
  by_cases hc1 : opts.keep_ids.any (fun id => sn.idHex.startsWith id) = true <;>
    by_cases hc2 : (!opts.keep_tags.isEmpty && tm sn.tags opts.keep_tags) =
      true <;>
    simp [hc1, hc2] at hx <;> tauto

theorem aux_step_reason2_self (sn : Forget.SnapshotFile)
    (last : Option Forget.SnapshotFile) (hn : Bool) (lt : Int)
    (st : Forget.KeepOptions × Bool × List String) (b : Forget.Bucket)
    (h1 : Forget.newBucket b sn last hn = true)
    (h3 : sn.time.ticks + (Forget.bucketWithin st.1 b : Int) > lt) :
    (Forget.bucketStep sn last hn lt st b).2.1 = true ∧
    Forget.bucketReason2 b ∈ (Forget.bucketStep sn last hn lt st b).2.2 := by
  simp only [Forget.bucketStep]
  rw [if_pos h1]
  by_cases h2 : Forget.bucketCounter st.1 b ≠ 0
  · rw [if_pos h2, if_pos h3]
    exact ⟨rfl, by simp [List.mem_append]⟩
  · rw [if_neg h2, if_pos h3]
    exact ⟨rfl, by simp [List.mem_append]⟩

theorem aux_foldall_within (sn : Forget.SnapshotFile)
    (last : Option Forget.SnapshotFile) (hn : Bool) (lt : Int)
    (b : Forget.Bucket) (st0 : Forget.KeepOptions × Bool × List String)
    (h1 : Forget.newBucket b sn last hn = true)
    (h3 : sn.time.ticks + (Forget.bucketWithin st0.1 b : Int) > lt) :
    (Forget.Bucket.all.foldl (Forget.bucketStep sn last hn lt) st0).2.1 =
      true ∧
    Forget.bucketReason2 b ∈
      (Forget.Bucket.all.foldl (Forget.bucketStep sn last hn lt) st0).2.2 := by
  obtain ⟨l1, l2, hall, hb1, hb2⟩ := aux_bucket_decomp b
  rw [hall, List.foldl_append, List.foldl_cons]
  have hw : Forget.bucketWithin
      (l1.foldl (Forget.bucketStep sn last hn lt) st0).1 b =
      Forget.bucketWithin st0.1 b :=
    aux_fold_within sn last hn lt b l1 st0
  have hstep := aux_step_reason2_self sn last hn lt
    (l1.foldl (Forget.bucketStep sn last hn lt) st0) b h1
    (by rw [hw]; exact h3)
  exact ⟨aux_fold_keep_mono sn last hn lt l2 _ hstep.1,
    aux_fold_mem_mono sn last hn lt (Forget.bucketReason2 b) l2 _ hstep.2⟩

/-- Claim C6, amended: when the snapshot begins a new bucket for the
bucket's equivalence predicate (no previous snapshot, a different bucket,
or last in the group) and `sn.time + within_bucket > latest_time`, then
`KeepOptions::matches` keeps the snapshot with the bucket's within reason.
(The unamended claim omits the new-bucket precondition; the within check is
skipped for a snapshot that continues its predecessor's bucket.) -/
theorem forget_matches_within_amended
    (tm : List String → List (List String) → Bool)
    (opts : Forget.KeepOptions) (sn : Forget.SnapshotFile)
    (last : Option Forget.SnapshotFile) (hn : Bool) (lt : Int)
    (b : Forget.Bucket)
    (h1 : Forget.newBucket b sn last hn = true)
    (h2 : sn.time.ticks + (Forget.bucketWithin opts b : Int) > lt) :
    (Forget.matchesCore tm opts sn last hn lt).2.1 = true ∧
    Forget.bucketReason2 b ∈ (Forget.matchesCore tm opts sn last hn lt).2.2 ∧
    (Forget.matchesFn tm opts sn last hn lt).2 ≠ none := by
  have hmain : (Forget.matchesCore tm opts sn last hn lt).2.1 = true ∧
      Forget.bucketReason2 b ∈
        (Forget.matchesCore tm opts sn last hn lt).2.2 := by
    simp only [Forget.matchesCore]
    exact aux_foldall_within sn last hn lt b _ h1 h2
  exact ⟨hmain.1, hmain.2, by
    simp only [Forget.matchesFn, hmain.1, if_true]
    exact Option.some_ne_none _⟩

theorem forget_matches_within_amended_witness :
    Forget.newBucket Forget.Bucket.hourly Wit.snK none true = true ∧
    (Wit.snK.time.ticks +
      (Forget.bucketWithin Wit.optsC Forget.Bucket.hourly : Int) > 1) ∧
    ((Forget.matchesCore Wit.tm0 Wit.optsC Wit.snK none true 1).2.1 = true ∧
     Forget.bucketReason2 Forget.Bucket.hourly ∈
       (Forget.matchesCore Wit.tm0 Wit.optsC Wit.snK none true 1).2.2 ∧
     (Forget.matchesFn Wit.tm0 Wit.optsC Wit.snK none true 1).2 ≠ none) :=
  ⟨by decide, by decide,
    forget_matches_within_amended Wit.tm0 Wit.optsC Wit.snK none true 1
      Forget.Bucket.hourly (by decide) (by decide)⟩

/-- Claim C6, counterexample: a snapshot in the same hour as its
predecessor (and not last in the group) satisfies `sn.time +
keep_within_hourly > latest_time`, yet `KeepOptions::matches` neither
records the within-hourly reason nor keeps the snapshot at all — the
within check only runs when the snapshot begins a new bucket. -/
theorem forget_matches_within_counterexample :
    (Wit.snK.time.ticks +
      (Forget.bucketWithin Wit.optsC Forget.Bucket.hourly : Int) > 1) ∧
    Forget.bucketReason2 Forget.Bucket.hourly ∉
      (Forget.matchesCore Wit.tm0 Wit.optsC Wit.snK (some Wit.lastK) true
        1).2.2 ∧
    (Forget.matchesFn Wit.tm0 Wit.optsC Wit.snK (some Wit.lastK) true 1).2 =
      none := by
  decide
